import Mathlib

/-!
Shallow embedding of src/copydoc.py (The-Politico/copydoc).

The program is a single class, CopyDoc, that cleans Google Doc HTML with
BeautifulSoup.  We embed the body of a parsed document as a flat list of
nodes (text nodes and elements whose children are again nodes) and translate
each method of the class into a pure Lean function of the same name.  The
external collaborators (BeautifulSoup, urllib, cssutils) are modelled by
their behaviour on the inputs this development quantifies over:

* urlsplit/parse_qs are modelled for queries separated by an ampersand and
  containing no percent escapes and no plus signs (the values pass through
  undecoded);
* BeautifulSoup attribute values are strings, lists of strings, or Python
  None; attribute dictionaries keep insertion order;
* the blacklist membership test of remove_blacklisted_tags uses list
  positions.  In bs4 the test is structural equality against live objects;
  on the documents considered here the two coincide, because every
  blacklisted tag is an anchor holding a raw string href while the tag
  under comparison, at comparison time, has already had its href rewritten
  to a list or to None by parse_attrs, so a structural match with a
  distinct blacklisted object is impossible.
-/

namespace Copydoc

/-- The six characters Python treats as whitespace in the re class \s and in
str.strip, for ASCII input. -/
def pyIsSpace (c : Char) : Bool :=
  c = ' ' || c = '\t' || c = '\n' || c = '\r' || c = '\x0b' || c = '\x0c'

/-- Python str.strip(): drop leading and trailing whitespace. -/
def pyStrip (s : String) : String :=
  ⟨((s.data.dropWhile pyIsSpace).reverse.dropWhile pyIsSpace).reverse⟩

/-- str.startswith on character lists. -/
def startsWithChars : List Char → List Char → Bool
  | _, [] => true
  | [], _ :: _ => false
  | c :: cs, p :: ps => c = p && startsWithChars cs ps

/-- str.startswith. -/
def pyStartsWith (s pre : String) : Bool :=
  startsWithChars s.data pre.data

/-- Split a character list at the first occurrence of a separator: the part
before it, and the part after it when the separator occurs at all. -/
def breakAtChar (sep : Char) : List Char → List Char × Option (List Char)
  | [] => ([], Option.none)
  | c :: cs =>
    if c = sep then ([], some cs)
    else
      let (b, a) := breakAtChar sep cs
      (c :: b, a)

/-- Split a character list at every occurrence of a separator. -/
def splitOnChar (sep : Char) : List Char → List (List Char)
  | [] => [[]]
  | c :: cs =>
    let r := splitOnChar sep cs
    if c = sep then [] :: r
    else
      match r with
      | [] => [[c]]
      | g :: gs => (c :: g) :: gs

/-- Python text.split(chr(58), 1)[-1]: everything after the first colon, or
the whole string when no colon occurs. -/
def splitColonTail (s : String) : String :=
  match (breakAtChar ':' s.data).2 with
  | some rest => ⟨rest⟩
  | Option.none => s

/-- urlsplit(href).query: the part of the string before the first hash sign
and after the first question mark. -/
def urlsplitQuery (href : String) : String :=
  let beforeFrag := (breakAtChar '#' href.data).1
  match (breakAtChar '?' beforeFrag).2 with
  | some q => ⟨q⟩
  | Option.none => ""

/-- One field of parse_qs: split at the first equals sign; fields without an
equals sign or with an empty value are dropped (keep_blank_values is false). -/
def parseQsField (field : List Char) : Option (List Char × List Char) :=
  match breakAtChar '=' field with
  | (_, Option.none) => Option.none
  | (k, some v) => if v.isEmpty then Option.none else some (k, v)

/-- parse_qs(query).get(key): group the values of the key in order; a key
with no surviving value is absent, so the result is None. -/
def parse_qs_get (query key : String) : Option (List String) :=
  let vals := ((splitOnChar '&' query.data).filterMap parseQsField).filterMap
    fun p => if p.1 = key.data then some (String.mk p.2) else Option.none
  if vals.isEmpty then Option.none else some vals

/-- CopyDoc._parse_href: parse_qs(urlsplit(href).query).get(chr(113)). -/
def _parse_href (href : String) : Option (List String) :=
  parse_qs_get (urlsplitQuery href) "q"

/-- A BeautifulSoup attribute value: a string, a list of strings (class
attributes, and hrefs after rewriting), or Python None. -/
inductive AttrVal where
  | str (s : String)
  | list (l : List String)
  | none

/-- The result of _parse_href stored back into an attribute dictionary. -/
def hrefToVal : Option (List String) → AttrVal
  | some l => AttrVal.list l
  | Option.none => AttrVal.none

/-- ATTR_WHITELIST from the module top level. -/
def ATTR_WHITELIST : List (String × List String) :=
  [("a", ["href"]), ("img", ["src", "alt"])]

/-- CopyDoc._parse_attr: delegate hrefs of anchors to the href parser,
return every other value unchanged.  Before this function runs the href of
an anchor is always a raw string. -/
def _parse_attr (tagname attr : String) (value : AttrVal) : AttrVal :=
  if tagname = "a" ∧ attr = "href" then
    match value with
    | AttrVal.str s => hrefToVal (_parse_href s)
    | v => v
  else value

/-- CopyDoc.parse_attrs on the attribute dictionary of a tag: for a
whitelisted tag keep exactly the allowed attributes, passing each kept value
through _parse_attr; for any other tag drop all attributes. -/
def parse_attrs (name : String) (attrs : List (String × AttrVal)) :
    List (String × AttrVal) :=
  match ATTR_WHITELIST.lookup name with
  | some allowed =>
    attrs.filterMap fun p =>
      if p.1 ∈ allowed then some (p.1, _parse_attr name p.1 p.2)
      else Option.none
  | Option.none => []

/-- A stylesheet as built by build_stylesheet: an association from selector
text (with the leading dot) to property-value pairs. -/
abbrev Stylesheet := List (String × List (String × String))

/-- CopyDoc.create_italic: for every class of the span the stylesheet is
indexed with a plain dictionary access, which raises KeyError when the
selector is absent.  The result counts the em wraps applied; an error
carries the missing selector. -/
def create_italic (ss : Stylesheet) (classes : List String) :
    Except String Nat :=
  classes.foldlM
    (fun acc cls =>
      match ss.lookup ("." ++ cls) with
      | Option.none => Except.error ("." ++ cls)
      | some styles =>
        Except.ok (acc + (styles.filter
          fun kv => kv.1 = "font-style" ∧ kv.2 = "italic").length))
    0

/-- CopyDoc.create_strong, with the same raising dictionary access. -/
def create_strong (ss : Stylesheet) (classes : List String) :
    Except String Nat :=
  classes.foldlM
    (fun acc cls =>
      match ss.lookup ("." ++ cls) with
      | Option.none => Except.error ("." ++ cls)
      | some styles =>
        Except.ok (acc + (styles.filter
          fun kv => kv.1 = "font-weight" ∧ (kv.2 = "bold" ∨ kv.2 = "700")).length))
    0

/-- CopyDoc.create_underline, with the same raising dictionary access. -/
def create_underline (ss : Stylesheet) (classes : List String) :
    Except String Nat :=
  classes.foldlM
    (fun acc cls =>
      match ss.lookup ("." ++ cls) with
      | Option.none => Except.error ("." ++ cls)
      | some styles =>
        Except.ok (acc + (styles.filter
          fun kv => kv.1 = "text-decoration" ∧ kv.2 = "underline").length))
    0

/-- A node of the parsed body: a NavigableString or a Tag with name,
attribute dictionary and children. -/
inductive Node where
  | text (s : String)
  | elem (name : String) (attrs : List (String × AttrVal)) (children : List Node)

mutual

/-- tag.get_text() / tag.text: the concatenation of all descendant
strings in document order. -/
def getText : Node → String
  | Node.text s => s
  | Node.elem _ _ cs => getTextList cs

def getTextList : List Node → String
  | [] => ""
  | [c] => getText c
  | c :: cs => getText c ++ getTextList cs

end

mutual

/-- The number of entries of tag.stripped_strings: descendant strings whose
strip() is nonempty. -/
def strippedCount : Node → Nat
  | Node.text s => if pyStrip s = "" then 0 else 1
  | Node.elem _ _ cs => strippedCountList cs

def strippedCountList : List Node → Nat
  | [] => 0
  | c :: cs => strippedCount c + strippedCountList cs

end

/-- The empty-element tag names of the html.parser tree builder used by
BeautifulSoup; is_empty_element consults this set. -/
def VOID_TAGS : List String :=
  ["area", "base", "br", "col", "embed", "hr", "img", "input", "keygen",
   "link", "menuitem", "meta", "param", "source", "track", "wbr"]

/-- tag.attrs.get(attr): first binding of the attribute, if any. -/
def attrLookup (nd : Node) (attr : String) : Option AttrVal :=
  match nd with
  | Node.text _ => Option.none
  | Node.elem _ attrs _ => attrs.lookup attr

def isAnchor : Node → Bool
  | Node.elem "a" _ _ => true
  | _ => false

/-- Python truthiness of an attribute value returned by tag.get. -/
def truthyAttr : AttrVal → Bool
  | AttrVal.str s => !(s == "")
  | AttrVal.list l => !l.isEmpty
  | AttrVal.none => false

/-- tag.append(string): a new NavigableString becomes the last child. -/
def appendText (nd : Node) (t : String) : Node :=
  match nd with
  | Node.text s => Node.text s
  | Node.elem n a cs => Node.elem n a (cs ++ [Node.text t])

/-- The condition of CopyDoc.check_next: the next sibling is an anchor Tag,
both tags have truthy raw href strings, and the parsed hrefs compare equal
(Python list or None equality, so None equals None). -/
def check_next (cur nxt : Node) : Bool :=
  isAnchor nxt &&
    (match attrLookup cur "href", attrLookup nxt "href" with
     | some v1, some v2 =>
       truthyAttr v1 && truthyAttr v2 &&
         (match v1, v2 with
          | AttrVal.str h1, AttrVal.str h2 =>
            _parse_href h1 == _parse_href h2
          | _, _ => false)
     | _, _ => false)

/-- The anchor pass of CopyDoc.parse over a flat body: the anchors are
collected up front and visited left to right; check_next appends the text
of a consumed next sibling to the current anchor and records the sibling on
the blacklist, which holds positions counted from the start of the body.
Positions are stable during this pass (nothing is detached yet), whether a
node is an anchor never changes, and check_next reads only the next
sibling, so the positional walk realizes the iteration of the source.
remove_comments is the identity on the documents considered here (no
anchor id starts with cmnt) and the pass is stated for bodies that contain
no span (the span pass that precedes it in parse is then a no-op). -/
def mergeWalk (i : Nat) : List Node → List Node × List Nat
  | [] => ([], [])
  | [x] => ([x], [])
  | x :: y :: rest =>
    if isAnchor x then
      if check_next x y then
        let x' := appendText x (getText y)
        let (r, bl) := mergeWalk (i + 1) (y :: rest)
        (x' :: r, (i + 1) :: bl)
      else
        let (r, bl) := mergeWalk (i + 1) (y :: rest)
        (x :: r, bl)
    else
      let (r, bl) := mergeWalk (i + 1) (y :: rest)
      (x :: r, bl)

/-- The condition of CopyDoc.remove_empty: no children, no stripped
strings, and not an empty-element tag (is_empty_element is true when the
tag can be empty and has no contents). -/
def remove_empty (name : String) (cs : List Node) : Bool :=
  cs.isEmpty && strippedCountList cs == 0 &&
    !(cs.isEmpty && VOID_TAGS.contains name)

/-- The condition of CopyDoc.remove_inline_comment. -/
def remove_inline_comment (text : String) : Bool :=
  pyStartsWith text "##"

/-- getattr(self, attr) is falsy: the field was never set, or holds the
empty string.  Field names are assumed not to collide with the fixed
instance attributes of the class. -/
def fieldFalsy (fields : List (String × String)) (target : String) : Bool :=
  match fields.lookup target with
  | Option.none => true
  | some v => v == ""

/-- setattr(self, target, v) on the token fields. -/
def setField (fields : List (String × String)) (target v : String) :
    List (String × String) :=
  match fields with
  | [] => [(target, v)]
  | (k, w) :: rest =>
    if k = target then (k, v) :: rest else (k, w) :: setField rest target v

/-- CopyDoc.find_token for one rule on the current tag: when the field is
unset or falsy and the text starts with the token, store the trimmed text
after the first colon and extract the tag. -/
def find_token (text token target : String)
    (st : List (String × String) × Bool) : List (String × String) × Bool :=
  if fieldFalsy st.1 target ∧ pyStartsWith text token then
    (setField st.1 target (pyStrip (splitColonTail text)), true)
  else st

/-- One iteration of the body loop of CopyDoc.parse for the element at
position i: remove_empty, remove_inline_comment, parse_attrs, find_token
for every rule, then remove_blacklisted_tags.  Extraction is recorded in a
flag so that the later operations still run on the (possibly detached)
tag, as they do in the source; the final slot is None when any of them
removed the tag. -/
def processElem (tokens : List (String × String)) (bl : List Nat) (i : Nat)
    (fields : List (String × String)) (name : String)
    (attrs : List (String × AttrVal)) (cs : List Node) :
    Option Node × List (String × String) :=
  let text := getTextList cs
  let r1 := remove_empty name cs
  let r2 := r1 || remove_inline_comment text
  let attrs2 := parse_attrs name attrs
  let (fields2, r3) := tokens.foldl
    (fun st p => find_token text p.1 p.2 st) (fields, r2)
  let r4 := r3 || bl.contains i
  (if r4 then Option.none else some (Node.elem name attrs2 cs), fields2)

/-- The body loop of CopyDoc.parse over a flat body: findAll() yields the
elements (not the strings) in order; each element is processed once, and
only the element of the current iteration can be extracted, so the
precomputed list and the live tree agree.  The result keeps one slot per
node of the body, None for a removed element. -/
def bodyLoop (tokens : List (String × String)) (bl : List Nat) :
    Nat → List Node → List (String × String) →
    List (Option Node) × List (String × String)
  | _, [], fs => ([], fs)
  | i, Node.text s :: rest, fs =>
    let (r, fs') := bodyLoop tokens bl (i + 1) rest fs
    (some (Node.text s) :: r, fs')
  | i, Node.elem n a cs :: rest, fs =>
    let (slot, fs1) := processElem tokens bl i fs n a cs
    let (r, fs2) := bodyLoop tokens bl (i + 1) rest fs1
    (slot :: r, fs2)

/-- CopyDoc.parse on a document whose body, when present, is the given
flat list of nodes: run the anchor pass, then the body loop; with no body
the guarded body loop is skipped and no fields are populated.  The first
component is the body (None when the document has none), the second the
token fields. -/
def runDoc (tokens : List (String × String)) :
    Option (List Node) → Option (List (Option Node)) × List (String × String)
  | Option.none => (Option.none, [])
  | some body =>
    let (b1, bl) := mergeWalk 0 body
    let (slots, fs) := bodyLoop tokens bl 0 b1 []
    (some slots, fs)

/-- re.sub over the character list: each maximal whitespace run becomes a
single space.  The flag records whether the previous character belonged to
a whitespace run whose space was already emitted. -/
def collapseAux (inRun : Bool) : List Char → List Char
  | [] => []
  | c :: cs =>
    if pyIsSpace c then
      if inRun then collapseAux true cs else ' ' :: collapseAux true cs
    else c :: collapseAux false cs

/-- CopyDoc.clean_linebreaks: collapse whitespace runs to single spaces,
then delete the newline characters that survive. -/
def clean_linebreaks (s : String) : String :=
  ⟨(collapseAux false s.data).filter (fun c => !(c == '\n'))⟩

/-- The space join bs4 applies to list-valued attributes on output. -/
def joinWithSpace : List String → String
  | [] => ""
  | [s] => s
  | s :: rest => s ++ " " ++ joinWithSpace rest

/-- One rendered attribute of tag.decode(formatter=None): list values are
joined with spaces, None renders the bare attribute name. -/
def renderAttr : String × AttrVal → String
  | (a, AttrVal.str s) => " " ++ a ++ "=\"" ++ s ++ "\""
  | (a, AttrVal.list l) => " " ++ a ++ "=\"" ++ joinWithSpace l ++ "\""
  | (a, AttrVal.none) => " " ++ a

def renderAttrs : List (String × AttrVal) → String
  | [] => ""
  | p :: rest => renderAttr p ++ renderAttrs rest

mutual

/-- tag.decode(formatter=None): serialize without entity substitution;
empty-element tags self-close. -/
def render : Node → String
  | Node.text s => s
  | Node.elem n attrs cs =>
    if VOID_TAGS.contains n then "<" ++ n ++ renderAttrs attrs ++ "/>"
    else
      "<" ++ n ++ renderAttrs attrs ++ ">" ++ renderList cs ++ "</" ++ n ++ ">"

def renderList : List Node → String
  | [] => ""
  | c :: cs => render c ++ renderList cs

end

/-- The join of CopyDoc.__str__ over the children of the body, skipping
removed slots: each surviving child is decoded and passed through
clean_linebreaks. -/
def renderBody : List (Option Node) → String
  | [] => ""
  | Option.none :: rest => renderBody rest
  | some nd :: rest => clean_linebreaks (render nd) ++ renderBody rest

/-- CopyDoc.__str__: the empty string when the document has no body, else
the concatenation of the cleaned decodes of the children of the body. -/
def docStr (tokens : List (String × String))
    (body : Option (List Node)) : String :=
  match (runDoc tokens body).1 with
  | Option.none => ""
  | some slots => renderBody slots

/-- An anchor with a raw string href and a single text child. -/
def anchor (h t : String) : Node :=
  Node.elem "a" [("href", AttrVal.str h)] [Node.text t]

/-- A paragraph with a single text child and no attributes. -/
def pTag (t : String) : Node :=
  Node.elem "p" [] [Node.text t]

/-- A run of sibling anchors from href-text pairs. -/
def runBody (l : List (String × String)) : List Node :=
  l.map fun p => anchor p.1 p.2

/-- The shape the anchor pass leaves a uniform run in: every anchor but the
last has absorbed the text of its successor, and every anchor keeps its raw
href. -/
def mergedRun : List (String × String) → List Node
  | [] => []
  | [(h, t)] => [anchor h t]
  | (h, t) :: (h2, t2) :: rest =>
    Node.elem "a" [("href", AttrVal.str h)] [Node.text t, Node.text t2] ::
      mergedRun ((h2, t2) :: rest)

def isElem : Node → Bool
  | Node.text _ => false
  | Node.elem _ _ _ => true

theorem check_next_anchor (h1 t1 h2 t2 : String) (hn1 : h1 ≠ "")
    (hn2 : h2 ≠ "") (he : _parse_href h1 = _parse_href h2) :
    check_next (anchor h1 t1) (anchor h2 t2) = true := by
  simp [check_next, anchor, isAnchor, attrLookup, truthyAttr, List.lookup,
    hn1, hn2, he]

theorem mergeWalk_pair (x y : Node) (i : Nat) (hx : isAnchor x = true)
    (hc : check_next x y = true) :
    mergeWalk i [x, y] = ([appendText x (getText y), y], [i + 1]) := by
  simp [mergeWalk, hx, hc]

theorem mergeWalk_skip (x : Node) (y : Node) (rest : List Node) (i : Nat)
    (hx : isAnchor x = false) :
    mergeWalk i (x :: y :: rest) =
      ((mergeWalk (i + 1) (y :: rest)).1.cons x,
       (mergeWalk (i + 1) (y :: rest)).2) := by
  simp [mergeWalk, hx]

theorem processElem_blacklisted (bl : List Nat) (i : Nat)
    (fs : List (String × String)) (n : String)
    (a : List (String × AttrVal)) (cs : List Node)
    (h : bl.contains i = true) :
    processElem [] bl i fs n a cs = (Option.none, fs) := by
  have hm : i ∈ bl := by simpa using h
  simp [processElem, hm]

theorem processElem_merged (bl : List Nat) (i : Nat)
    (fs : List (String × String)) (h t1 t2 : String)
    (hcm : pyStartsWith (t1 ++ t2) "##" = false) :
    processElem [] bl i fs "a" [("href", AttrVal.str h)]
      [Node.text t1, Node.text t2] =
      (if bl.contains i then Option.none
       else some (Node.elem "a" [("href", hrefToVal (_parse_href h))]
         [Node.text t1, Node.text t2]), fs) := by
  simp [processElem, remove_empty, remove_inline_comment, getTextList,
    getText, parse_attrs, ATTR_WHITELIST, List.lookup, _parse_attr, hcm]

theorem bodyLoop_blacklisted (bl : List Nat) :
    ∀ (l : List Node) (i : Nat) (fs : List (String × String)),
      (∀ nd ∈ l, isElem nd = true) →
      (∀ j, j < l.length → bl.contains (i + j) = true) →
      bodyLoop [] bl i l fs = (List.replicate l.length Option.none, fs)
  | [], _, _, _, _ => by simp [bodyLoop]
  | Node.text s :: _, _, _, helem, _ => by
    exact absurd (helem (Node.text s) (by simp)) (by simp [isElem])
  | Node.elem n a cs :: rest, i, fs, helem, hall => by
    have h0 : bl.contains i = true := by simpa using hall 0 (by simp)
    have ih := bodyLoop_blacklisted bl rest (i + 1) fs
      (fun nd hnd => helem nd (List.mem_cons_of_mem _ hnd))
      (fun j hj => by
        have := hall (j + 1) (by simpa using Nat.succ_lt_succ hj)
        simpa [Nat.add_comm, Nat.add_left_comm] using this)
    simp [bodyLoop, processElem_blacklisted bl i fs n a cs h0, ih,
      List.replicate_succ]

theorem mergedRun_elems : ∀ l, ∀ nd ∈ mergedRun l, isElem nd = true
  | [], _, h => by simp [mergedRun] at h
  | [(h, t)], nd, hm => by
    simp [mergedRun] at hm
    simp [hm, anchor, isElem]
  | (h1, t1) :: (h2, t2) :: rest, nd, hm => by
    rw [mergedRun] at hm
    rcases List.mem_cons.mp hm with h | h
    · simp [h, isElem]
    · exact mergedRun_elems ((h2, t2) :: rest) nd h

theorem mergedRun_length : ∀ l, (mergedRun l).length = l.length
  | [] => rfl
  | [(_, _)] => rfl
  | (h1, t1) :: (h2, t2) :: rest => by
    rw [mergedRun]
    simpa using mergedRun_length ((h2, t2) :: rest)

theorem mergeWalk_run (q : List String) :
    ∀ (l : List (String × String)),
      (∀ p ∈ l, p.1 ≠ "" ∧ _parse_href p.1 = some q) →
      ∀ i, mergeWalk i (runBody l) =
        (mergedRun l, List.range' (i + 1) (l.length - 1))
  | [], _, i => by simp [runBody, mergedRun, mergeWalk]
  | [(h, t)], _, i => by simp [runBody, mergedRun, mergeWalk]
  | (h1, t1) :: (h2, t2) :: rest, hu, i => by
    have h1p := hu (h1, t1) (by simp)
    have h2p := hu (h2, t2) (by simp)
    have hc : check_next (anchor h1 t1) (anchor h2 t2) = true :=
      check_next_anchor h1 t1 h2 t2 h1p.1 h2p.1 (by rw [h1p.2, h2p.2])
    have ih := mergeWalk_run q ((h2, t2) :: rest)
      (fun p hp => hu p (List.mem_cons_of_mem _ hp)) (i + 1)
    have hrb : runBody ((h1, t1) :: (h2, t2) :: rest) =
        anchor h1 t1 :: anchor h2 t2 :: runBody rest := by simp [runBody, anchor]
    have hrb2 : runBody ((h2, t2) :: rest) =
        anchor h2 t2 :: runBody rest := by simp [runBody, anchor]
    rw [hrb, mergeWalk, if_pos (by rfl), if_pos hc, ← hrb2, ih]
    rw [mergedRun]
    simp [List.range'_succ, anchor, appendText, getText, getTextList]

theorem contains_range' (s n m : Nat) :
    (List.range' s n).contains m = true ↔ s ≤ m ∧ m < s + n := by
  simp [List.mem_range'_1]

/-- C1: the inline-style rewriter indexes the stylesheet dictionary with a
plain subscript, so a span class whose selector is absent from the mapping
raises KeyError instead of being treated as unstyled: each of the three
style passes fails on the first missing selector. -/
theorem c1_missing_selector_keyerror :
    create_italic [] ["c1"] = Except.error ".c1" ∧
    create_strong [] ["c1"] = Except.error ".c1" ∧
    create_underline [] ["c1"] = Except.error ".c1" :=
  ⟨rfl, rfl, rfl⟩

/-- C2 counterexample: three adjacent anchors resolving to the same
destination with texts 1, 2 and 3 leave the first anchor holding only the
texts 1 and 2; the text of the third anchor is lost, so the output text is
not the concatenation of all three. -/
theorem c2_transitive_counterexample :
    runDoc [] (some (runBody [("u?q=x", "1"), ("u?q=x", "2"), ("u?q=x", "3")])) =
      (some [some (Node.elem "a" [("href", AttrVal.list ["x"])]
        [Node.text "1", Node.text "2"]), Option.none, Option.none], []) ∧
    getText (Node.elem "a" [("href", AttrVal.list ["x"])]
      [Node.text "1", Node.text "2"]) ≠ "1" ++ "2" ++ "3" :=
  ⟨rfl, by decide⟩

/-- C2 amended: for a run of three or more adjacent anchors whose raw
hrefs are non-empty and all resolve to the same destination, every anchor
after the first is absent from the output, but the surviving first anchor
holds only the concatenation of the first two texts; the texts of the
third and later anchors are dropped, because each consumed anchor received
the text of its successor before being decomposed. -/
theorem c2_run_merge_amended (q : List String) (h1 t1 h2 t2 : String)
    (rest : List (String × String)) (_hlen : rest ≠ [])
    (hu : ∀ p ∈ (h1, t1) :: (h2, t2) :: rest,
      p.1 ≠ "" ∧ _parse_href p.1 = some q)
    (hcm : pyStartsWith (t1 ++ t2) "##" = false) :
    runDoc [] (some (runBody ((h1, t1) :: (h2, t2) :: rest))) =
      (some (some (Node.elem "a" [("href", AttrVal.list q)]
        [Node.text t1, Node.text t2]) ::
        List.replicate (rest.length + 1) Option.none), []) := by
  have hmw := mergeWalk_run q ((h1, t1) :: (h2, t2) :: rest) hu 0
  have hlen1 : ((h1, t1) :: (h2, t2) :: rest).length - 1 = rest.length + 1 := by
    simp
  rw [hlen1] at hmw
  have hq1 := (hu (h1, t1) (by simp)).2
  have hc0 : (List.range' 1 (rest.length + 1)).contains 0 = false := by
    rw [Bool.eq_false_iff]
    intro hc
    exact absurd ((contains_range' _ _ _).mp hc).1 (by omega)
  have hp0 := processElem_merged (List.range' 1 (rest.length + 1)) 0 [] h1 t1 t2 hcm
  rw [hq1, hc0] at hp0
  have htail := bodyLoop_blacklisted (List.range' 1 (rest.length + 1))
    (mergedRun ((h2, t2) :: rest)) 1 []
    (mergedRun_elems ((h2, t2) :: rest))
    (fun j hj => by
      rw [mergedRun_length] at hj
      exact (contains_range' _ _ _).mpr (by simp at hj; omega))
  simp only [runDoc, hmw]
  rw [mergedRun]
  simp only [bodyLoop, hp0, htail, if_false, Bool.false_eq_true]
  rw [mergedRun_length]
  simp [hrefToVal]

/-- C2 witness for the amended statement at a concrete run of three. -/
theorem c2_run_merge_witness :
    runDoc [] (some (runBody
      [("https://g.co/url?q=https://ex.com", "A"),
       ("https://g.co/url?q=https://ex.com", "B"),
       ("https://g.co/url?q=https://ex.com", "C")])) =
      (some (some (Node.elem "a" [("href", AttrVal.list ["https://ex.com"])]
        [Node.text "A", Node.text "B"]) ::
        List.replicate 2 Option.none), []) :=
  c2_run_merge_amended ["https://ex.com"] _ _ _ _
    [("https://g.co/url?q=https://ex.com", "C")]
    (by decide) (by decide) (by decide)

/-- C5: two directly adjacent anchors whose non-empty hrefs resolve via
the q parameter to the same destination are merged: the output holds a
single anchor carrying both texts in order, its href rewritten to the
resolved destination, and the second anchor is absent. -/
theorem c5_adjacent_merge (h1 t1 h2 t2 : String) (q : List String)
    (hn1 : h1 ≠ "") (hn2 : h2 ≠ "")
    (hq1 : _parse_href h1 = some q) (hq2 : _parse_href h2 = some q)
    (hcm : pyStartsWith (t1 ++ t2) "##" = false) :
    runDoc [] (some [anchor h1 t1, anchor h2 t2]) =
      (some [some (Node.elem "a" [("href", AttrVal.list q)]
        [Node.text t1, Node.text t2]), Option.none], []) := by
  have hc := check_next_anchor h1 t1 h2 t2 hn1 hn2 (by rw [hq1, hq2])
  have hm := mergeWalk_pair (anchor h1 t1) (anchor h2 t2) 0 rfl hc
  have happ : appendText (anchor h1 t1) (getText (anchor h2 t2)) =
      Node.elem "a" [("href", AttrVal.str h1)] [Node.text t1, Node.text t2] := rfl
  rw [happ] at hm
  have hp0 := processElem_merged [1] 0 [] h1 t1 t2 hcm
  rw [hq1] at hp0
  have hp1 := processElem_blacklisted [1] 1 []
    "a" [("href", AttrVal.str h2)] [Node.text t2] rfl
  simp only [runDoc, hm]
  simp [bodyLoop, anchor, hp0, hp1, hrefToVal]

/-- C5 witness at a concrete pair of anchors. -/
theorem c5_adjacent_merge_witness :
    runDoc [] (some [anchor "https://g.co/url?q=https://example.com" "one ",
      anchor "https://g.co/url?q=https://example.com" "two"]) =
      (some [some (Node.elem "a" [("href", AttrVal.list ["https://example.com"])]
        [Node.text "one ", Node.text "two"]), Option.none], []) :=
  c5_adjacent_merge _ _ _ _ ["https://example.com"]
    (by decide) (by decide) (by decide) (by decide) (by decide)

/-- C3 counterexample: two adjacent anchors with different raw hrefs, both
lacking a q parameter, resolve to None on both sides; None equals None, so
the code merges them: the second anchor is gone and the first holds both
texts, contradicting that two unresolved links are never merged. -/
theorem c3_unresolved_merge_counterexample :
    _parse_href "http://a.com" = Option.none ∧
    _parse_href "http://b.com" = Option.none ∧
    runDoc [] (some [anchor "http://a.com" "x", anchor "http://b.com" "y"]) =
      (some [some (Node.elem "a" [("href", AttrVal.none)]
        [Node.text "x", Node.text "y"]), Option.none], []) :=
  ⟨rfl, rfl, rfl⟩

/-- C3 amended: resolution of an href without a q parameter yields the
absent value None without raising, but the merge comparison treats two
absent results as equal, so two adjacent anchors with non-empty raw hrefs
that both fail to resolve are merged into the first. -/
theorem c3_unresolved_merge_amended (h1 t1 h2 t2 : String)
    (hn1 : h1 ≠ "") (hn2 : h2 ≠ "")
    (hq1 : _parse_href h1 = Option.none) (hq2 : _parse_href h2 = Option.none)
    (hcm : pyStartsWith (t1 ++ t2) "##" = false) :
    runDoc [] (some [anchor h1 t1, anchor h2 t2]) =
      (some [some (Node.elem "a" [("href", AttrVal.none)]
        [Node.text t1, Node.text t2]), Option.none], []) := by
  have hc := check_next_anchor h1 t1 h2 t2 hn1 hn2 (by rw [hq1, hq2])
  have hm := mergeWalk_pair (anchor h1 t1) (anchor h2 t2) 0 rfl hc
  have happ : appendText (anchor h1 t1) (getText (anchor h2 t2)) =
      Node.elem "a" [("href", AttrVal.str h1)] [Node.text t1, Node.text t2] := rfl
  rw [happ] at hm
  have hp0 := processElem_merged [1] 0 [] h1 t1 t2 hcm
  rw [hq1] at hp0
  have hp1 := processElem_blacklisted [1] 1 []
    "a" [("href", AttrVal.str h2)] [Node.text t2] rfl
  simp only [runDoc, hm]
  simp [bodyLoop, anchor, hp0, hp1, hrefToVal]

/-- C3 witness for the amended statement at concrete unresolved anchors. -/
theorem c3_unresolved_merge_witness :
    runDoc [] (some [anchor "http://one.example" "x",
      anchor "http://two.example" "y"]) =
      (some [some (Node.elem "a" [("href", AttrVal.none)]
        [Node.text "x", Node.text "y"]), Option.none], []) :=
  c3_unresolved_merge_amended _ _ _ _
    (by decide) (by decide) (by decide) (by decide) (by decide)

/-- C8: a document without a body yields the empty string from the string
accessor, the body loop is skipped, and no token fields are populated. -/
theorem c8_no_body (tokens : List (String × String)) :
    runDoc tokens Option.none = (Option.none, []) ∧
    docStr tokens Option.none = "" :=
  ⟨rfl, rfl⟩

/-- C8 witness with a concrete token list. -/
theorem c8_no_body_witness :
    runDoc [("Title:", "title")] Option.none = (Option.none, []) ∧
    docStr [("Title:", "title")] Option.none = "" :=
  c8_no_body [("Title:", "title")]

/-- C6 counterexample: with rule (Title:, title), a first matching element
whose text after the colon is empty is consumed, but the stored empty value
is falsy, so the second matching element is consumed as well and overwrites
the field: it does not remain, and the field ends up Real, not empty. -/
theorem c6_empty_value_counterexample :
    runDoc [("Title:", "title")] (some [pTag "Title:", pTag "Title: Real"]) =
      (some [Option.none, Option.none], [("title", "Real")]) ∧
    ("Real" : String) ≠ "" :=
  ⟨rfl, by decide⟩

/-- C6 amended: the first body element whose text starts with the prefix is
always consumed, and the trimmed text after the first colon becomes the
field value; a later matching element remains only when that stored value
is non-empty, because an empty stored value leaves the field falsy and the
later element is then consumed too, overwriting the field. -/
theorem c6_find_token_amended (tok tgt t1 t2 : String)
    (h1 : pyStartsWith t1 tok = true) (h2 : pyStartsWith t2 tok = true)
    (hc1 : pyStartsWith t1 "##" = false) (hc2 : pyStartsWith t2 "##" = false) :
    (pyStrip (splitColonTail t1) ≠ "" →
      runDoc [(tok, tgt)] (some [pTag t1, pTag t2]) =
        (some [Option.none, some (pTag t2)],
         [(tgt, pyStrip (splitColonTail t1))])) ∧
    (pyStrip (splitColonTail t1) = "" →
      runDoc [(tok, tgt)] (some [pTag t1, pTag t2]) =
        (some [Option.none, Option.none],
         [(tgt, pyStrip (splitColonTail t2))])) := by
  have hm : mergeWalk 0 [pTag t1, pTag t2] = ([pTag t1, pTag t2], []) := by
    simp [mergeWalk, pTag, isAnchor]
  have hs0 : processElem [(tok, tgt)] [] 0 [] "p" [] [Node.text t1] =
      (Option.none, [(tgt, pyStrip (splitColonTail t1))]) := by
    simp [processElem, remove_empty, remove_inline_comment, getTextList,
      getText, parse_attrs, ATTR_WHITELIST, List.lookup, find_token,
      fieldFalsy, setField, hc1, h1]
  constructor <;> intro hv
  · have hs1 : processElem [(tok, tgt)] [] 1
        [(tgt, pyStrip (splitColonTail t1))] "p" [] [Node.text t2] =
        (some (pTag t2), [(tgt, pyStrip (splitColonTail t1))]) := by
      simp [processElem, remove_empty, remove_inline_comment, getTextList,
        getText, parse_attrs, ATTR_WHITELIST, List.lookup, find_token,
        fieldFalsy, setField, pTag, hc2, h2, hv]
    simp only [runDoc, hm]
    simp [bodyLoop, pTag, hs0, hs1]
  · have hs1 : processElem [(tok, tgt)] [] 1
        [(tgt, pyStrip (splitColonTail t1))] "p" [] [Node.text t2] =
        (Option.none, [(tgt, pyStrip (splitColonTail t2))]) := by
      simp [processElem, remove_empty, remove_inline_comment, getTextList,
        getText, parse_attrs, ATTR_WHITELIST, List.lookup, find_token,
        fieldFalsy, setField, hc2, h2, hv]
    simp only [runDoc, hm]
    simp [bodyLoop, pTag, hs0, hs1]

/-- C6 witness for the amended statement: the first match stores the
non-empty value and removes its element while the second match remains. -/
theorem c6_find_token_witness :
    runDoc [("Title:", "title")]
      (some [pTag "Title: Hello World", pTag "Title: Other"]) =
      (some [Option.none, some (pTag "Title: Other")],
       [("title", "Hello World")]) := by
  have h := (c6_find_token_amended "Title:" "title" "Title: Hello World"
    "Title: Other" (by decide) (by decide) (by decide) (by decide)).1
    (by decide)
  simpa using h

/-- C7: a body element with no children, no non-whitespace text and a
non-void tag is detached by the pruner; a void element is preserved even
when empty, keeping its whitelisted attributes. -/
theorem c7_remove_empty (name : String) (attrs : List (String × AttrVal))
    (_hspan : name ≠ "span")
    (_hid : ∀ s, attrs.lookup "id" = some (AttrVal.str s) →
      pyStartsWith s "cmnt" = false) :
    (VOID_TAGS.contains name = false →
      runDoc [] (some [Node.elem name attrs []]) = (some [Option.none], [])) ∧
    (VOID_TAGS.contains name = true →
      runDoc [] (some [Node.elem name attrs []]) =
        (some [some (Node.elem name (parse_attrs name attrs) [])], [])) := by
  have hm : mergeWalk 0 [Node.elem name attrs []] =
      ([Node.elem name attrs []], []) := by simp [mergeWalk]
  constructor <;> intro hv
  · have hv' : name ∉ VOID_TAGS := by simpa using hv
    have hp : processElem [] [] 0 [] name attrs [] = (Option.none, []) := by
      simp [processElem, remove_empty, remove_inline_comment, getTextList,
        strippedCountList, pyStartsWith, startsWithChars, hv']
    simp only [runDoc, hm]
    simp [bodyLoop, hp]
  · have hv' : name ∈ VOID_TAGS := by simpa using hv
    have hp : processElem [] [] 0 [] name attrs [] =
        (some (Node.elem name (parse_attrs name attrs) []), []) := by
      simp [processElem, remove_empty, remove_inline_comment, getTextList,
        strippedCountList, pyStartsWith, startsWithChars, hv']
    simp only [runDoc, hm]
    simp [bodyLoop, hp]

/-- C7 witness: an empty paragraph is removed while an empty br survives. -/
theorem c7_remove_empty_witness :
    runDoc [] (some [Node.elem "p" [] []]) = (some [Option.none], []) ∧
    runDoc [] (some [Node.elem "br" [] []]) =
      (some [some (Node.elem "br" [] [])], []) := by
  constructor
  · exact (c7_remove_empty "p" [] (by decide) (by intro s h; simp at h)).1 rfl
  · have h := (c7_remove_empty "br" [] (by decide)
      (by intro s h; simp at h)).2 rfl
    simpa [parse_attrs, ATTR_WHITELIST, List.lookup] using h

theorem collapseAux_head (l : List Char) :
    ∀ c, (collapseAux true l).head? = some c → pyIsSpace c = false := by
  induction l with
  | nil => intro c h; simp [collapseAux] at h
  | cons a as ih =>
    intro c h
    by_cases ha : pyIsSpace a
    · rw [collapseAux] at h
      simp only [ha, if_true, if_pos rfl] at h
      exact ih c h
    · rw [collapseAux] at h
      simp only [Bool.not_eq_true] at ha
      simp [ha] at h
      subst h
      exact ha

theorem collapseAux_chain (l : List Char) : ∀ b,
    (collapseAux b l).Chain'
      fun x y => pyIsSpace x = false ∨ pyIsSpace y = false := by
  induction l with
  | nil => intro b; simp [collapseAux]
  | cons a as ih =>
    intro b
    by_cases ha : pyIsSpace a
    · cases b
      · rw [collapseAux]
        simp only [ha, eq_self_iff_true, if_true, Bool.false_eq_true, if_false]
        refine List.chain'_cons'.mpr ⟨?_, ih true⟩
        intro y hy
        exact Or.inr (collapseAux_head as y hy)
      · rw [collapseAux]
        simp only [ha, eq_self_iff_true, if_true]
        exact ih true
    · rw [collapseAux]
      simp only [Bool.not_eq_true] at ha
      simp only [ha, Bool.false_eq_true, if_false]
      refine List.chain'_cons'.mpr ⟨?_, ih false⟩
      intro y _
      exact Or.inl ha

theorem collapseAux_no_newline (l : List Char) : ∀ b, '\n' ∉ collapseAux b l := by
  induction l with
  | nil => intro b; simp [collapseAux]
  | cons a as ih =>
    intro b
    by_cases ha : pyIsSpace a
    · cases b
      · rw [collapseAux]
        simp only [ha, eq_self_iff_true, if_true, Bool.false_eq_true, if_false]
        intro h
        rcases List.mem_cons.mp h with h | h
        · exact absurd h (by decide)
        · exact ih true h
      · rw [collapseAux]
        simp only [ha, eq_self_iff_true, if_true]
        exact ih true
    · rw [collapseAux]
      simp only [Bool.not_eq_true] at ha
      simp only [ha, Bool.false_eq_true, if_false]
      intro h
      rcases List.mem_cons.mp h with h | h
      · rw [← h] at ha
        exact absurd ha (by decide)
      · exact ih false h

theorem clean_linebreaks_no_newline (s : String) :
    '\n' ∉ (clean_linebreaks s).data := by
  intro h
  have := (List.mem_filter.mp h).2
  simp at this

theorem clean_linebreaks_filter_id (s : String) :
    (clean_linebreaks s).data = collapseAux false s.data := by
  show (collapseAux false s.data).filter _ = _
  apply List.filter_eq_self.mpr
  intro a ha
  have hne : a ≠ '\n' := fun h => collapseAux_no_newline s.data false (h ▸ ha)
  simp [hne]

theorem clean_linebreaks_chain (s : String) :
    (clean_linebreaks s).data.Chain'
      (fun x y => pyIsSpace x = false ∨ pyIsSpace y = false) := by
  rw [clean_linebreaks_filter_id]
  exact collapseAux_chain s.data false

theorem renderBody_no_newline : ∀ slots, '\n' ∉ (renderBody slots).data
  | [] => by simp [renderBody]
  | Option.none :: rest => by
    simpa [renderBody] using renderBody_no_newline rest
  | some nd :: rest => by
    rw [renderBody]
    intro h
    rcases List.mem_append.mp h with h | h
    · exact clean_linebreaks_no_newline _ h
    · exact renderBody_no_newline rest h

/-- C9: serialization yields a single-line fragment: the string accessor
output never contains a newline for any document, the cleaned decode of
every body child contains no two adjacent whitespace characters (each run
was collapsed to one space), and the concrete body text with embedded
newlines and spaces serializes to the collapsed form. -/
theorem c9_serialization :
    (∀ (tokens : List (String × String)) (b : Option (List Node)),
      '\n' ∉ (docStr tokens b).data) ∧
    (∀ nd, ((clean_linebreaks (render nd)).data).Chain'
      fun x y => pyIsSpace x = false ∨ pyIsSpace y = false) ∧
    docStr [] (some [Node.text "a\n\n  b"]) = "a b" := by
  refine ⟨?_, fun nd => clean_linebreaks_chain (render nd), rfl⟩
  intro tokens b
  cases b with
  | none => simp [docStr, runDoc]
  | some body =>
    simp only [docStr, runDoc]
    exact renderBody_no_newline _

/-- C9 witness at a concrete document with newlines in its text. -/
theorem c9_serialization_witness :
    '\n' ∉ (docStr [] (some [Node.text "x\n\ny", pTag "z"])).data :=
  (c9_serialization).1 [] (some [Node.text "x\n\ny", pTag "z"])

theorem lookup_filterMap_allowed (name : String) (allowed : List String) :
    ∀ (attrs : List (String × AttrVal)) (a : String),
      (attrs.filterMap fun p =>
        if p.1 ∈ allowed then some (p.1, _parse_attr name p.1 p.2)
        else Option.none).lookup a =
      if a ∈ allowed then (attrs.lookup a).map (_parse_attr name a)
      else Option.none
  | [], a => by simp [List.lookup]
  | (b, v) :: rest, a => by
    by_cases hb : b ∈ allowed
    · by_cases hab : a = b
      · subst hab
        simp [List.filterMap_cons, hb, List.lookup]
      · simp only [List.filterMap_cons, if_pos hb]
        have hab' : (a == b) = false := by simp [hab]
        simp only [List.lookup, hab']
        exact lookup_filterMap_allowed name allowed rest a
    · by_cases hab : a = b
      · subst hab
        simp only [List.filterMap_cons, if_neg hb]
        rw [lookup_filterMap_allowed name allowed rest a]
        simp [hb, List.lookup]
      · simp only [List.filterMap_cons, if_neg hb]
        have hab' : (a == b) = false := by simp [hab]
        rw [lookup_filterMap_allowed name allowed rest a]
        simp [List.lookup, hab']

/-- C4: for a whitelisted tag the attribute filter keeps exactly the
attributes in the allowed set, each passed through the per-attribute
parser, which rewrites the href of an anchor to the resolved value and
returns every other value unchanged; for a tag outside the whitelist every
attribute is dropped. -/
theorem c4_attr_whitelist (name : String) (attrs : List (String × AttrVal)) :
    (ATTR_WHITELIST.lookup name = Option.none → parse_attrs name attrs = []) ∧
    (∀ allowed, ATTR_WHITELIST.lookup name = some allowed →
      ∀ a, (parse_attrs name attrs).lookup a =
        if a ∈ allowed then (attrs.lookup a).map (_parse_attr name a)
        else Option.none) ∧
    (∀ a v, ¬(name = "a" ∧ a = "href") → _parse_attr name a v = v) ∧
    (∀ s, _parse_attr "a" "href" (AttrVal.str s) = hrefToVal (_parse_href s)) := by
  refine ⟨?_, ?_, ?_, ?_⟩
  · intro h
    simp [parse_attrs, h]
  · intro allowed h a
    rw [parse_attrs, h]
    exact lookup_filterMap_allowed name allowed attrs a
  · intro a v h
    simp [_parse_attr, h]
  · intro s
    simp [_parse_attr]

/-- C4 witness: an img keeps only src and alt while its onclick is gone,
and a div keeps nothing. -/
theorem c4_attr_whitelist_witness :
    (parse_attrs "img" [("src", AttrVal.str "i.png"), ("alt", AttrVal.str "x"),
      ("onclick", AttrVal.str "f()")]).lookup "onclick" = Option.none ∧
    (parse_attrs "img" [("src", AttrVal.str "i.png"), ("alt", AttrVal.str "x"),
      ("onclick", AttrVal.str "f()")]).lookup "src" =
      some (AttrVal.str "i.png") ∧
    parse_attrs "div" [("id", AttrVal.str "d"), ("class", AttrVal.list ["c"])] =
      [] := by
  refine ⟨?_, ?_, ?_⟩
  · have h := (c4_attr_whitelist "img" [("src", AttrVal.str "i.png"),
      ("alt", AttrVal.str "x"), ("onclick", AttrVal.str "f()")]).2.1
      ["src", "alt"] rfl "onclick"
    rw [h]
    simp
  · have h := (c4_attr_whitelist "img" [("src", AttrVal.str "i.png"),
      ("alt", AttrVal.str "x"), ("onclick", AttrVal.str "f()")]).2.1
      ["src", "alt"] rfl "src"
    rw [h]
    simp [List.lookup, _parse_attr]
  · exact (c4_attr_whitelist "div" [("id", AttrVal.str "d"),
      ("class", AttrVal.list ["c"])]).1 rfl

/-- C10: after attribute filtering the href of an anchor holds the parser
output itself: the list of q parameter values when the parameter is
present, and None when it is absent; on a Google redirect URL the value is
a one-element list of strings, not a plain URL string. -/
theorem c10_href_value :
    (∀ s l, _parse_href s = some l →
      parse_attrs "a" [("href", AttrVal.str s)] =
        [("href", AttrVal.list l)]) ∧
    (∀ s, _parse_href s = Option.none →
      parse_attrs "a" [("href", AttrVal.str s)] =
        [("href", AttrVal.none)]) ∧
    _parse_href "https://www.google.com/url?q=https://example.com&sa=D" =
      some ["https://example.com"] := by
  refine ⟨?_, ?_, rfl⟩
  · intro s l h
    simp [parse_attrs, ATTR_WHITELIST, List.lookup, _parse_attr, h, hrefToVal]
  · intro s h
    simp [parse_attrs, ATTR_WHITELIST, List.lookup, _parse_attr, h, hrefToVal]

/-- C10 witness at the concrete redirect URL. -/
theorem c10_href_value_witness :
    parse_attrs "a"
      [("href", AttrVal.str
        "https://www.google.com/url?q=https://example.com&sa=D")] =
      [("href", AttrVal.list ["https://example.com"])] :=
  (c10_href_value).1 _ ["https://example.com"] rfl

end Copydoc

